import Mathlib

/-!
Shallow embedding of `flink-python/pyflink/ml/api/base.py` (the ML pipeline
composition layer): `PipelineStage` / `Transformer` / `Estimator` / `Model` /
`Pipeline`, with the `append_stage`, `need_fit`, `fit` and `transform`
operations, and the parameter-name translation of
`PipelineStage._make_java_param`.

Stages are modelled as a closed set of variants: a plain transformer (carries
its pure `transform` function), a plain (non-`Pipeline`) estimator (carries its
pure `fit` function, which yields a model, i.e. a transform function), an
`invalid` stage (a `PipelineStage` that is neither `Estimator` nor
`Transformer`), and a nested pipeline (its `stages` list and its
`last_estimator_index` field).  Tables and table environments are opaque type
parameters `Table` and `Ctx`.  Python exceptions raised by this layer are
modelled with `Except PipeErr`.
-/

namespace FlinkML

/-- Errors raised by the pipeline layer: `RuntimeError("Pipeline contains
Estimator, need to fit first.")`, `RuntimeError("All PipelineStages should be
Estimator or Transformer!")`, and the `AttributeError`/`NotImplementedError`
that calling a missing `fit`/`transform` attribute would raise. -/
inductive PipeErr where
  | notFitted
  | invalidStage
  | noSuchMethod
deriving DecidableEq, Repr

/-- A pipeline stage.  `transformer` is a (non-`Pipeline`) `Transformer` with
its pure transform function; `estimator` is a non-`Pipeline` `Estimator`
whose fit function produces a `Model`, i.e. a transform function;
`invalid` is a `PipelineStage` that is neither `Estimator` nor `Transformer`;
`pipe stages lastEstimatorIndex` is a nested `Pipeline` with its two fields. -/
inductive Stage (Ctx Table : Type) where
  | transformer (transform : Ctx → Table → Table)
  | estimator (fit : Ctx → Table → Ctx → Table → Table)
  | invalid
  | pipe (stages : List (Stage Ctx Table)) (lastEstimatorIndex : Int)

/-- The two attributes of a `Pipeline`: `self.stages` and
`self.last_estimator_index` (the spec's `last_trainable_index`). -/
structure Pipeline (Ctx Table : Type) where
  stages : List (Stage Ctx Table)
  last_estimator_index : Int

variable {Ctx Table : Type}

/-- View a `Pipeline` as a stage of an enclosing pipeline. -/
def Pipeline.toStage (p : Pipeline Ctx Table) : Stage Ctx Table :=
  .pipe p.stages p.last_estimator_index

/-- `Pipeline.need_fit`: `return self.last_estimator_index >= 0`. -/
def Pipeline.need_fit (p : Pipeline Ctx Table) : Bool :=
  decide (0 ≤ p.last_estimator_index)

/-- `Pipeline._is_stage_need_fit`:
`(isinstance(stage, Pipeline) and stage.need_fit()) or
 ((not isinstance(stage, Pipeline)) and isinstance(stage, Estimator))`. -/
def isStageNeedFit : Stage Ctx Table → Bool
  | .pipe _ idx => decide (0 ≤ idx)
  | .estimator _ => true
  | .transformer _ => false
  | .invalid => false

/-- `isinstance(stage, Transformer)`: plain transformers, and `Pipeline`
itself (which derives from `Model`, hence from `Transformer`). -/
def isTransformerStage : Stage Ctx Table → Bool
  | .transformer _ => true
  | .pipe _ _ => true
  | .estimator _ => false
  | .invalid => false

/-- `isinstance(stage, Estimator)`: plain estimators, and `Pipeline` itself
(which derives from `Estimator`) — regardless of its fit state. -/
def isEstimatorStage : Stage Ctx Table → Bool
  | .estimator _ => true
  | .pipe _ _ => true
  | .transformer _ => false
  | .invalid => false

/-- `Pipeline.append_stage`, in state-passing form: the first component is the
receiver's field state after the call (unchanged when the call raises), the
second the call's result.  The method sets `last_estimator_index` when the
stage needs fit, raises when the stage is not a `Transformer` either, and
otherwise appends the stage and returns `self`. -/
def Pipeline.append_stage (p : Pipeline Ctx Table) (s : Stage Ctx Table) :
    Pipeline Ctx Table × Except PipeErr (Pipeline Ctx Table) :=
  if isStageNeedFit s then
    let q : Pipeline Ctx Table := ⟨p.stages ++ [s], (p.stages.length : Int)⟩
    (q, .ok q)
  else if isTransformerStage s then
    let q : Pipeline Ctx Table := ⟨p.stages ++ [s], p.last_estimator_index⟩
    (q, .ok q)
  else
    (p, .error .invalidStage)

/-- The result of one `append_stage` call (the post-state is the returned
pipeline on success, and irrelevant on failure since the exception aborts
`__init__`). -/
def appendStageE (p : Pipeline Ctx Table) (s : Stage Ctx Table) :
    Except PipeErr (Pipeline Ctx Table) :=
  (p.append_stage s).2

/-- The loop of `Pipeline.__init__`: `for stage in stages: self.append_stage(stage)`,
starting from an arbitrary current state. -/
def mkPipelineAux (p : Pipeline Ctx Table) :
    List (Stage Ctx Table) → Except PipeErr (Pipeline Ctx Table)
  | [] => .ok p
  | s :: rest =>
    match appendStageE p s with
    | .error e => .error e
    | .ok q => mkPipelineAux q rest

/-- `Pipeline(stages)`: start from `stages = []`, `last_estimator_index = -1`
and append every given stage in order. -/
def mkPipeline (l : List (Stage Ctx Table)) : Except PipeErr (Pipeline Ctx Table) :=
  mkPipelineAux ⟨[], -1⟩ l

mutual

/-- Calling `.transform(t_env, table)` on a stage object: a transformer applies
its function, a nested pipeline runs `Pipeline.transform`, and an estimator or
invalid stage has no usable `transform` attribute. -/
def stageTransform : Stage Ctx Table → Ctx → Table → Except PipeErr Table
  | .transformer f, c, t => .ok (f c t)
  | .estimator _, _, _ => .error .noSuchMethod
  | .invalid, _, _ => .error .noSuchMethod
  | .pipe ss idx, c, t =>
    if 0 ≤ idx then .error .notFitted
    else transformAll ss c t
termination_by s => (sizeOf s, 0)

/-- The loop of `Pipeline.transform`: `for s in self.stages: input = s.transform(t_env, input)`. -/
def transformAll : List (Stage Ctx Table) → Ctx → Table → Except PipeErr Table
  | [], _, t => .ok t
  | s :: rest, c, t =>
    match stageTransform s c t with
    | .error e => .error e
    | .ok out => transformAll rest c out
termination_by l => (sizeOf l, 1)

end

/-- `Pipeline.transform`: raise `NotFittedError` when `need_fit()`, otherwise
pipe the input through every stage's `transform` in order. -/
def Pipeline.transform (p : Pipeline Ctx Table) (c : Ctx) (input : Table) :
    Except PipeErr Table :=
  if p.need_fit then .error .notFitted
  else transformAll p.stages c input

mutual

/-- Calling `.fit(t_env, table)` on a stage object: a plain estimator returns
its trained model (a transformer), a nested pipeline runs `Pipeline.fit`, and
a transformer or invalid stage has no usable `fit` attribute. -/
def stageFit : Stage Ctx Table → Ctx → Table → Except PipeErr (Stage Ctx Table)
  | .estimator f, c, t => .ok (.transformer (f c t))
  | .pipe ss idx, c, t =>
    match pipeFit ss idx c t with
    | .error e => .error e
    | .ok q => .ok (.pipe q.stages q.last_estimator_index)
  | .transformer _, _, _ => .error .noSuchMethod
  | .invalid, _, _ => .error .noSuchMethod
termination_by s => (sizeOf s, 0)

/-- `Pipeline.fit` on a pipeline with fields `ss`, `idx`: run the fitting loop
and build the returned pipeline with `Pipeline(transform_stages)`. -/
def pipeFit (ss : List (Stage Ctx Table)) (idx : Int) (c : Ctx) (t : Table) :
    Except PipeErr (Pipeline Ctx Table) :=
  match fitLoop ss 0 idx c t with
  | .error e => .error e
  | .ok ts => mkPipeline ts
termination_by (sizeOf ss, 1)

/-- The loop of `Pipeline.fit` over `i in range(len(stages))` with the current
absolute index `i` and threshold `L = self.last_estimator_index`: within the
threshold, fit the stage when it needs fitting (else keep it), record it, and
advance `input` by the recorded stage's `transform`; past the threshold,
record the stage unchanged. -/
def fitLoop : List (Stage Ctx Table) → Nat → Int → Ctx → Table →
    Except PipeErr (List (Stage Ctx Table))
  | [], _, _, _, _ => .ok []
  | s :: rest, i, L, c, input =>
    if (i : Int) ≤ L then
      match (if isStageNeedFit s then stageFit s c input else .ok s) with
      | .error e => .error e
      | .ok t =>
        match stageTransform t c input with
        | .error e => .error e
        | .ok out =>
          match fitLoop rest (i + 1) L c out with
          | .error e => .error e
          | .ok restF => .ok (t :: restF)
    else
      match fitLoop rest (i + 1) L c input with
      | .error e => .error e
      | .ok restF => .ok (s :: restF)
termination_by l => (sizeOf l, 0)

end

/-- `Pipeline.fit(t_env, input)`. -/
def Pipeline.fit (p : Pipeline Ctx Table) (c : Ctx) (input : Table) :
    Except PipeErr (Pipeline Ctx Table) :=
  pipeFit p.stages p.last_estimator_index c input

/-- State-passing form of `Pipeline.fit`: first component is the receiver's
field state after the call.  The method body reads `self.stages` and
`self.last_estimator_index` but assigns no attribute of `self`
(`transform_stages` and `input` are locals), so the receiver state passes
through unchanged. -/
def Pipeline.fitRun (p : Pipeline Ctx Table) (c : Ctx) (input : Table) :
    Pipeline Ctx Table × Except PipeErr (Pipeline Ctx Table) :=
  (p, pipeFit p.stages p.last_estimator_index c input)

mutual

/-- The pure denotation of a fitted (not-needing-fit) stage's `transform`:
a transformer applies its function, a nested pipeline folds its stages.
(On estimator or invalid stages — where `transform` raises — it is junk.) -/
def stageApply : Stage Ctx Table → Ctx → Table → Table
  | .transformer f, c, t => f c t
  | .pipe ss _, c, t => applyAll ss c t
  | .estimator _, _, t => t
  | .invalid, _, t => t
termination_by s => (sizeOf s, 0)

/-- Left-to-right fold of `stageApply` over a stage list. -/
def applyAll : List (Stage Ctx Table) → Ctx → Table → Table
  | [], _, t => t
  | s :: rest, c, t => applyAll rest c (stageApply s c t)
termination_by l => (sizeOf l, 1)

end

/-- The maximum index of a stage that needs fitting in a list, or `-1` when
none does (the value `last_estimator_index` holds for an append-built list). -/
def lastNeedFitIndex : List (Stage Ctx Table) → Int
  | [] => -1
  | s :: rest =>
    let r := lastNeedFitIndex rest
    if 0 ≤ r then r + 1 else if isStageNeedFit s then 0 else -1

mutual

/-- Structural well-formedness of a stage as Python's API produces it: not an
invalid stage, and every nested pipeline's `last_estimator_index` is the one
its append-built construction maintains, recursively. -/
def StageOk : Stage Ctx Table → Bool
  | .transformer _ => true
  | .estimator _ => true
  | .invalid => false
  | .pipe ss idx => decide (idx = lastNeedFitIndex ss) && stagesOk ss
termination_by s => (sizeOf s, 0)

/-- All stages in the list are well-formed. -/
def stagesOk : List (Stage Ctx Table) → Bool
  | [] => true
  | s :: rest => StageOk s && stagesOk rest
termination_by l => (sizeOf l, 1)

end

/-- Structural well-formedness of a pipeline (the state every pipeline built
through `Pipeline.__init__`/`append_stage` from well-formed stages has). -/
def PipelineOk (p : Pipeline Ctx Table) : Bool :=
  decide (p.last_estimator_index = lastNeedFitIndex p.stages) && stagesOk p.stages

mutual

/-- No (non-`Pipeline`) `Estimator` stage occurs anywhere, recursing through
nested pipelines. -/
def stageNoEst : Stage Ctx Table → Bool
  | .transformer _ => true
  | .estimator _ => false
  | .invalid => true
  | .pipe ss _ => stagesNoEst ss
termination_by s => (sizeOf s, 0)

/-- No estimator stage anywhere in the list, recursively. -/
def stagesNoEst : List (Stage Ctx Table) → Bool
  | [] => true
  | s :: rest => stageNoEst s && stagesNoEst rest
termination_by l => (sizeOf l, 1)

end

/-- The freshly constructed `Pipeline()`: `stages = []`, `last_estimator_index = -1`. -/
def Pipeline.empty : Pipeline Ctx Table := ⟨[], -1⟩

/-- A concrete sample transformer stage (adds one), used to instantiate the
generic theorems at a computable input. -/
def sampleT : Stage Unit Nat := .transformer fun _ t => t + 1

/-- A second concrete sample transformer stage (doubles). -/
def sampleT2 : Stage Unit Nat := .transformer fun _ t => 2 * t

/-- A concrete sample estimator stage: fitting on table `t` yields the model
that adds `t`. -/
def sampleE : Stage Unit Nat := .estimator fun _ t => fun _ u => u + t

/-- A concrete sample nested pipeline holding one estimator (needs fitting). -/
def sampleInner : Pipeline Unit Nat := ⟨[sampleE], 0⟩

/-- `idx` is the maximum index of a needs-fitting stage in `l`, or `-1` when
no stage of `l` needs fitting (spec invariant A, stated explicitly). -/
def IsLastNeedFit (l : List (Stage Ctx Table)) (idx : Int) : Prop :=
  (idx = -1 ∧ ∀ (j : Nat) (hj : j < l.length), isStageNeedFit (l.get ⟨j, hj⟩) = false) ∨
  (∃ (j : Nat) (hj : j < l.length), idx = (j : Int) ∧
    isStageNeedFit (l.get ⟨j, hj⟩) = true ∧
    ∀ (k : Nat) (hk : k < l.length), j < k → isStageNeedFit (l.get ⟨k, hk⟩) = false)

/-- Model of `re.sub(r'(?<!^)(?=[A-Z])', '_', name)`: the zero-width pattern
matches every position that is not the string start and is followed by an
ASCII uppercase letter, and an underscore is substituted at each match
position.  Rendered over the indexed characters of the name. -/
def reSubBeforeUpper (name : List Char) : List Char :=
  (name.enum.map fun p =>
    if p.1 ≠ 0 ∧ p.2.isUpper then ['_', p.2] else [p.2]).flatten

/-- `PipelineStage._make_java_param`'s name translation:
`re.sub(r'(?<!^)(?=[A-Z])', '_', param.name).upper()`. -/
def makeJavaParamName (name : List Char) : List Char :=
  (reSubBeforeUpper name).map Char.toUpper

/-- Modelled from the spec: the tail pass of the simple insertion mapping —
an underscore goes in front of each uppercase letter (all positions handled
here are internal, i.e. not the string start). -/
def specInsertSepTail : List Char → List Char
  | [] => []
  | ch :: rest => (if ch.isUpper then ['_', ch] else [ch]) ++ specInsertSepTail rest

/-- Modelled from the spec: insert a separator before each uppercase letter
that is not at the start of the string, then uppercase the whole string. -/
def specSnakeCase (name : List Char) : List Char :=
  (match name with
   | [] => []
   | c0 :: rest => c0 :: specInsertSepTail rest).map Char.toUpper

/-! ### Lemmas about `lastNeedFitIndex` -/

theorem lastNeedFitIndex_nil : lastNeedFitIndex ([] : List (Stage Ctx Table)) = -1 := rfl

theorem lastNeedFitIndex_cons (s : Stage Ctx Table) (rest : List (Stage Ctx Table)) :
    lastNeedFitIndex (s :: rest) =
      if 0 ≤ lastNeedFitIndex rest then lastNeedFitIndex rest + 1
      else if isStageNeedFit s then (0 : Int) else -1 := rfl

theorem lastNeedFitIndex_ge (l : List (Stage Ctx Table)) : -1 ≤ lastNeedFitIndex l := by
  induction l with
  | nil => simp [lastNeedFitIndex_nil]
  | cons s rest ih =>
    rw [lastNeedFitIndex_cons]
    split
    · omega
    · split <;> omega

theorem lastNeedFitIndex_lt_length (l : List (Stage Ctx Table)) :
    lastNeedFitIndex l < (l.length : Int) := by
  induction l with
  | nil => simp [lastNeedFitIndex_nil]
  | cons s rest ih =>
    rw [lastNeedFitIndex_cons]
    simp only [List.length_cons]
    split
    · push_cast; omega
    · split <;> (push_cast; omega)

theorem lastNeedFitIndex_eq_neg_one_iff (l : List (Stage Ctx Table)) :
    lastNeedFitIndex l = -1 ↔ ∀ s ∈ l, isStageNeedFit s = false := by
  induction l with
  | nil => simp [lastNeedFitIndex_nil]
  | cons s rest ih =>
    rw [lastNeedFitIndex_cons]
    simp only [List.mem_cons]
    constructor
    · intro h
      by_cases hr : 0 ≤ lastNeedFitIndex rest
      · rw [if_pos hr] at h; omega
      · rw [if_neg hr] at h
        by_cases hs : isStageNeedFit s
        · rw [if_pos hs] at h; omega
        · intro x hx
          rcases hx with rfl | hx
          · simp only [Bool.not_eq_true] at hs; exact hs
          · have hrest : lastNeedFitIndex rest = -1 := by
              have := lastNeedFitIndex_ge rest; omega
            exact (ih.mp hrest) x hx
    · intro h
      have hrest : lastNeedFitIndex rest = -1 :=
        ih.mpr fun x hx => h x (Or.inr hx)
      have hs : isStageNeedFit s = false := h s (Or.inl rfl)
      rw [hrest]
      simp [hs]

theorem lastNeedFitIndex_snoc (l : List (Stage Ctx Table)) (s : Stage Ctx Table) :
    lastNeedFitIndex (l ++ [s]) =
      if isStageNeedFit s then (l.length : Int) else lastNeedFitIndex l := by
  induction l with
  | nil =>
    cases hs : isStageNeedFit s <;> simp [lastNeedFitIndex_nil, lastNeedFitIndex_cons, hs]
  | cons a rest ih =>
    rw [List.cons_append, lastNeedFitIndex_cons, ih, lastNeedFitIndex_cons]
    cases hs : isStageNeedFit s
    · simp
    · have h0 : (0 : Int) ≤ (rest.length : Int) := Int.ofNat_nonneg _
      simp only [if_true]
      rw [if_pos h0]
      simp only [List.length_cons]
      push_cast
      omega

theorem needFit_false_of_lt (l : List (Stage Ctx Table))
    (j : Nat) (hj : j < l.length) (h : lastNeedFitIndex l < (j : Int)) :
    isStageNeedFit (l.get ⟨j, hj⟩) = false := by
  induction l generalizing j with
  | nil => simp at hj
  | cons s rest ih =>
    rw [lastNeedFitIndex_cons] at h
    match j with
    | 0 =>
      by_cases hs : isStageNeedFit s
      · exfalso
        by_cases hr : 0 ≤ lastNeedFitIndex rest
        · rw [if_pos hr] at h; omega
        · rw [if_neg hr, if_pos hs] at h; omega
      · simpa using hs
    | j + 1 =>
      have hj2 : j < rest.length := by simpa using hj
      have hrest : lastNeedFitIndex rest < (j : Int) := by
        have := lastNeedFitIndex_ge rest
        split at h
        · push_cast at h ⊢; omega
        · split at h <;> (push_cast at h ⊢; omega)
      exact ih j hj2 hrest

theorem isLastNeedFit_lastNeedFitIndex (l : List (Stage Ctx Table)) :
    IsLastNeedFit l (lastNeedFitIndex l) := by
  induction l with
  | nil => exact Or.inl ⟨rfl, fun j hj => by simp at hj⟩
  | cons s rest ih =>
    rcases ih with ⟨hneg, hall⟩ | ⟨j, hj, hidx, hfit, hbeyond⟩
    · cases hs : isStageNeedFit s
      · left
        refine ⟨by rw [lastNeedFitIndex_cons, hneg]; simp [hs], fun j hj => ?_⟩
        match j with
        | 0 => exact hs
        | j + 1 => exact hall j (by simpa using hj)
      · right
        refine ⟨0, by simp, ?_, hs, fun k hk hgt => ?_⟩
        · rw [lastNeedFitIndex_cons, hneg]; simp [hs]
        · match k with
          | k + 1 => exact hall k (by simpa using hk)
    · right
      have hj0 : 0 ≤ lastNeedFitIndex rest := by omega
      refine ⟨j + 1, by simpa using Nat.succ_lt_succ hj, ?_, hfit, fun k hk hgt => ?_⟩
      · rw [lastNeedFitIndex_cons, if_pos hj0, hidx]; push_cast; ring
      · match k, hk with
        | k + 1, hk => exact hbeyond k (by simpa using hk) (by omega)

/-! ### Unfolding equations for the mutually recursive functions -/

theorem stageTransform_transformer (f : Ctx → Table → Table) (c : Ctx) (t : Table) :
    stageTransform (.transformer f) c t = .ok (f c t) := by
  simp [stageTransform]

theorem stageTransform_estimator (f : Ctx → Table → Ctx → Table → Table) (c : Ctx) (t : Table) :
    stageTransform (.estimator f) c t = .error .noSuchMethod := by
  simp [stageTransform]

theorem stageTransform_invalid (c : Ctx) (t : Table) :
    stageTransform (.invalid : Stage Ctx Table) c t = .error .noSuchMethod := by
  simp [stageTransform]

theorem stageTransform_pipe (ss : List (Stage Ctx Table)) (idx : Int) (c : Ctx) (t : Table) :
    stageTransform (.pipe ss idx) c t =
      if 0 ≤ idx then .error .notFitted else transformAll ss c t := by
  simp [stageTransform]

theorem transformAll_nil (c : Ctx) (t : Table) :
    transformAll ([] : List (Stage Ctx Table)) c t = .ok t := by
  simp [transformAll]

theorem transformAll_cons (s : Stage Ctx Table) (rest : List (Stage Ctx Table))
    (c : Ctx) (t : Table) :
    transformAll (s :: rest) c t =
      match stageTransform s c t with
      | .error e => .error e
      | .ok out => transformAll rest c out := by
  simp [transformAll]

theorem stageFit_estimator (f : Ctx → Table → Ctx → Table → Table) (c : Ctx) (t : Table) :
    stageFit (.estimator f) c t = .ok (.transformer (f c t)) := by
  simp [stageFit]

theorem stageFit_transformer (f : Ctx → Table → Table) (c : Ctx) (t : Table) :
    stageFit (.transformer f) c t = .error .noSuchMethod := by
  simp [stageFit]

theorem stageFit_invalid (c : Ctx) (t : Table) :
    stageFit (.invalid : Stage Ctx Table) c t = .error .noSuchMethod := by
  simp [stageFit]

theorem stageFit_pipe (ss : List (Stage Ctx Table)) (idx : Int) (c : Ctx) (t : Table) :
    stageFit (.pipe ss idx) c t =
      match pipeFit ss idx c t with
      | .error e => .error e
      | .ok q => .ok (.pipe q.stages q.last_estimator_index) := by
  simp [stageFit]

theorem pipeFit_eq (ss : List (Stage Ctx Table)) (idx : Int) (c : Ctx) (t : Table) :
    pipeFit ss idx c t =
      match fitLoop ss 0 idx c t with
      | .error e => .error e
      | .ok ts => mkPipeline ts := by
  simp [pipeFit]

theorem fitLoop_nil (i : Nat) (L : Int) (c : Ctx) (t : Table) :
    fitLoop ([] : List (Stage Ctx Table)) i L c t = .ok [] := by
  simp [fitLoop]

theorem fitLoop_cons (s : Stage Ctx Table) (rest : List (Stage Ctx Table))
    (i : Nat) (L : Int) (c : Ctx) (input : Table) :
    fitLoop (s :: rest) i L c input =
      if (i : Int) ≤ L then
        match (if isStageNeedFit s then stageFit s c input else .ok s) with
        | .error e => .error e
        | .ok t =>
          match stageTransform t c input with
          | .error e => .error e
          | .ok out =>
            match fitLoop rest (i + 1) L c out with
            | .error e => .error e
            | .ok restF => .ok (t :: restF)
      else
        match fitLoop rest (i + 1) L c input with
        | .error e => .error e
        | .ok restF => .ok (s :: restF) := by
  simp [fitLoop]

theorem stageApply_transformer (f : Ctx → Table → Table) (c : Ctx) (t : Table) :
    stageApply (.transformer f) c t = f c t := by
  simp [stageApply]

theorem stageApply_pipe (ss : List (Stage Ctx Table)) (idx : Int) (c : Ctx) (t : Table) :
    stageApply (.pipe ss idx) c t = applyAll ss c t := by
  simp [stageApply]

theorem applyAll_nil (c : Ctx) (t : Table) :
    applyAll ([] : List (Stage Ctx Table)) c t = t := by
  simp [applyAll]

theorem applyAll_cons (s : Stage Ctx Table) (rest : List (Stage Ctx Table))
    (c : Ctx) (t : Table) :
    applyAll (s :: rest) c t = applyAll rest c (stageApply s c t) := by
  simp [applyAll]

theorem StageOk_transformer (f : Ctx → Table → Table) :
    StageOk (.transformer f) = true := by
  simp [StageOk]

theorem StageOk_estimator (f : Ctx → Table → Ctx → Table → Table) :
    StageOk (.estimator f) = true := by
  simp [StageOk]

theorem StageOk_invalid : StageOk (.invalid : Stage Ctx Table) = false := by
  simp [StageOk]

theorem StageOk_pipe (ss : List (Stage Ctx Table)) (idx : Int) :
    StageOk (.pipe ss idx) = (decide (idx = lastNeedFitIndex ss) && stagesOk ss) := by
  simp [StageOk]

theorem stagesOk_nil : stagesOk ([] : List (Stage Ctx Table)) = true := by
  simp [stagesOk]

theorem stagesOk_cons (s : Stage Ctx Table) (rest : List (Stage Ctx Table)) :
    stagesOk (s :: rest) = (StageOk s && stagesOk rest) := by
  simp [stagesOk]

theorem stageNoEst_transformer (f : Ctx → Table → Table) :
    stageNoEst (.transformer f) = true := by
  simp [stageNoEst]

theorem stageNoEst_estimator (f : Ctx → Table → Ctx → Table → Table) :
    stageNoEst (.estimator f) = false := by
  simp [stageNoEst]

theorem stageNoEst_invalid : stageNoEst (.invalid : Stage Ctx Table) = true := by
  simp [stageNoEst]

theorem stageNoEst_pipe (ss : List (Stage Ctx Table)) (idx : Int) :
    stageNoEst (.pipe ss idx) = stagesNoEst ss := by
  simp [stageNoEst]

theorem stagesNoEst_nil : stagesNoEst ([] : List (Stage Ctx Table)) = true := by
  simp [stagesNoEst]

theorem stagesNoEst_cons (s : Stage Ctx Table) (rest : List (Stage Ctx Table)) :
    stagesNoEst (s :: rest) = (stageNoEst s && stagesNoEst rest) := by
  simp [stagesNoEst]


/-! ### Lemmas about `append_stage` and pipeline construction -/

theorem needFit_or_transformer_of_ne_invalid (s : Stage Ctx Table) (h : s ≠ .invalid) :
    isStageNeedFit s = true ∨ isTransformerStage s = true := by
  cases s with
  | transformer f => right; rfl
  | estimator f => left; rfl
  | invalid => exact absurd rfl h
  | pipe ss idx => right; rfl

theorem appendStageE_error_iff (p : Pipeline Ctx Table) (s : Stage Ctx Table) :
    (∃ e, appendStageE p s = .error e) ↔ s = .invalid := by
  constructor
  · rintro ⟨e, he⟩
    by_contra hne
    rcases needFit_or_transformer_of_ne_invalid s hne with hs | ht
    · simp [appendStageE, Pipeline.append_stage, hs] at he
    · by_cases hs : isStageNeedFit s <;>
        simp [appendStageE, Pipeline.append_stage, hs, ht] at he
  · rintro rfl
    exact ⟨.invalidStage, rfl⟩

theorem appendStageE_ok_spec (p q : Pipeline Ctx Table) (s : Stage Ctx Table)
    (h : appendStageE p s = .ok q) :
    q.stages = p.stages ++ [s] ∧
    q.last_estimator_index =
      (if isStageNeedFit s then (p.stages.length : Int) else p.last_estimator_index) := by
  by_cases hs : isStageNeedFit s
  · simp only [appendStageE, Pipeline.append_stage, hs, if_true] at h
    simp only [Except.ok.injEq] at h
    subst h
    simp [hs]
  · by_cases ht : isTransformerStage s
    · simp only [appendStageE, Pipeline.append_stage, hs, ht, if_true, if_false,
        Bool.false_eq_true] at h
      simp only [Except.ok.injEq] at h
      subst h
      simp [hs]
    · simp [appendStageE, Pipeline.append_stage, hs, ht] at h

theorem appendStageE_ok_of_ne_invalid (p : Pipeline Ctx Table) (s : Stage Ctx Table)
    (h : s ≠ .invalid) :
    ∃ q, appendStageE p s = .ok q := by
  by_cases hs : isStageNeedFit s
  · exact ⟨⟨p.stages ++ [s], (p.stages.length : Int)⟩,
      by simp [appendStageE, Pipeline.append_stage, hs]⟩
  · rcases needFit_or_transformer_of_ne_invalid s h with hs2 | ht
    · exact absurd hs2 hs
    · exact ⟨⟨p.stages ++ [s], p.last_estimator_index⟩,
        by simp [appendStageE, Pipeline.append_stage, hs, ht]⟩

theorem appendStageE_invariant (p q : Pipeline Ctx Table) (s : Stage Ctx Table)
    (hp : p.last_estimator_index = lastNeedFitIndex p.stages)
    (h : appendStageE p s = .ok q) :
    q.stages = p.stages ++ [s] ∧ q.last_estimator_index = lastNeedFitIndex q.stages := by
  obtain ⟨hst, hidx⟩ := appendStageE_ok_spec p q s h
  refine ⟨hst, ?_⟩
  rw [hst, lastNeedFitIndex_snoc, hidx, hp]

theorem mkPipelineAux_spec (l : List (Stage Ctx Table)) :
    ∀ (p q : Pipeline Ctx Table), mkPipelineAux p l = .ok q →
      q.stages = p.stages ++ l ∧
      (p.last_estimator_index = lastNeedFitIndex p.stages →
        q.last_estimator_index = lastNeedFitIndex q.stages) := by
  induction l with
  | nil =>
    intro p q h
    simp only [mkPipelineAux, Except.ok.injEq] at h
    subst h
    simp
  | cons s rest ih =>
    intro p q h
    simp only [mkPipelineAux] at h
    cases hap : appendStageE p s with
    | error e => rw [hap] at h; cases h
    | ok r =>
      rw [hap] at h
      obtain ⟨hst, hidx⟩ := ih r q h
      obtain ⟨hrst, hridx⟩ := appendStageE_ok_spec p r s hap
      constructor
      · rw [hst, hrst, List.append_assoc, List.singleton_append]
      · intro hp
        exact hidx ((appendStageE_invariant p r s hp hap).2)

theorem mkPipeline_spec (l : List (Stage Ctx Table)) (q : Pipeline Ctx Table)
    (h : mkPipeline l = .ok q) :
    q.stages = l ∧ q.last_estimator_index = lastNeedFitIndex l := by
  obtain ⟨hst, hidx⟩ := mkPipelineAux_spec l ⟨[], -1⟩ q h
  simp only [List.nil_append] at hst
  refine ⟨hst, ?_⟩
  rw [← hst]
  exact hidx (by simp [lastNeedFitIndex_nil])

theorem mkPipelineAux_ok_of_ne_invalid (l : List (Stage Ctx Table))
    (hl : ∀ s ∈ l, s ≠ Stage.invalid) :
    ∀ p : Pipeline Ctx Table, ∃ q, mkPipelineAux p l = .ok q := by
  induction l with
  | nil => intro p; exact ⟨p, rfl⟩
  | cons s rest ih =>
    intro p
    obtain ⟨r, hr⟩ := appendStageE_ok_of_ne_invalid p s (hl s (List.mem_cons_self s rest))
    obtain ⟨q, hq⟩ := ih (fun x hx => hl x (List.mem_cons_of_mem s hx)) r
    refine ⟨q, ?_⟩
    simp only [mkPipelineAux, hr]
    exact hq

theorem mkPipeline_ok_of_ne_invalid (l : List (Stage Ctx Table))
    (hl : ∀ s ∈ l, s ≠ Stage.invalid) :
    ∃ q, mkPipeline l = .ok q ∧ q.stages = l ∧ q.last_estimator_index = lastNeedFitIndex l := by
  obtain ⟨q, hq⟩ := mkPipelineAux_ok_of_ne_invalid l hl ⟨[], -1⟩
  exact ⟨q, hq, mkPipeline_spec l q hq⟩

theorem mkPipelineAux_append (l1 l2 : List (Stage Ctx Table)) :
    ∀ (p q : Pipeline Ctx Table), mkPipelineAux p (l1 ++ l2) = .ok q →
      ∃ r, mkPipelineAux p l1 = .ok r ∧ mkPipelineAux r l2 = .ok q := by
  induction l1 with
  | nil => intro p q h; exact ⟨p, rfl, h⟩
  | cons s rest ih =>
    intro p q h
    simp only [List.cons_append, mkPipelineAux] at h ⊢
    cases hap : appendStageE p s with
    | error e => rw [hap] at h; cases h
    | ok r =>
      rw [hap] at h
      exact ih r q h


/-! ### Well-formedness helpers -/

theorem stagesOk_mem (l : List (Stage Ctx Table)) (hl : stagesOk l = true)
    (s : Stage Ctx Table) (hs : s ∈ l) : StageOk s = true := by
  induction l with
  | nil => simp at hs
  | cons a rest ih =>
    rw [stagesOk_cons] at hl
    simp only [Bool.and_eq_true] at hl
    rw [List.mem_cons] at hs
    rcases hs with rfl | hs
    · exact hl.1
    · exact ih hl.2 hs

theorem StageOk_ne_invalid (s : Stage Ctx Table) (h : StageOk s = true) :
    s ≠ .invalid := by
  intro hrfl
  subst hrfl
  rw [StageOk_invalid] at h
  cases h

theorem stagesOk_of_forall (l : List (Stage Ctx Table))
    (h : ∀ s ∈ l, StageOk s = true) : stagesOk l = true := by
  induction l with
  | nil => exact stagesOk_nil
  | cons a rest ih =>
    rw [stagesOk_cons]
    simp only [Bool.and_eq_true]
    exact ⟨h a (List.mem_cons_self a rest), ih fun x hx => h x (List.mem_cons_of_mem a hx)⟩

/-! ### Transform of a fitted, well-formed pipeline succeeds -/

theorem transform_ok_core : ∀ n : Nat,
    (∀ s : Stage Ctx Table, sizeOf s < n → StageOk s = true → isStageNeedFit s = false →
      ∀ c t, stageTransform s c t = .ok (stageApply s c t)) ∧
    (∀ l : List (Stage Ctx Table), sizeOf l < n → stagesOk l = true →
      (∀ s ∈ l, isStageNeedFit s = false) →
      ∀ c t, transformAll l c t = .ok (applyAll l c t)) := by
  intro n
  induction n using Nat.strong_induction_on with
  | _ n ih =>
    constructor
    · intro s hs hok hnf c t
      match s with
      | .transformer f => rw [stageTransform_transformer, stageApply_transformer]
      | .estimator f => simp [isStageNeedFit] at hnf
      | .invalid => rw [StageOk_invalid] at hok; cases hok
      | .pipe ss idx =>
        have hsz : sizeOf (Stage.pipe ss idx : Stage Ctx Table) = 1 + sizeOf ss + sizeOf idx :=
          Stage.pipe.sizeOf_spec ss idx
        have hidx : ¬ (0 ≤ idx) := by
          simp only [isStageNeedFit, decide_eq_false_iff_not] at hnf
          exact hnf
        rw [stageTransform_pipe, if_neg hidx, stageApply_pipe]
        rw [StageOk_pipe] at hok
        simp only [Bool.and_eq_true, decide_eq_true_eq] at hok
        obtain ⟨hlast, hssOk⟩ := hok
        have hneg : lastNeedFitIndex ss = -1 := by
          have := lastNeedFitIndex_ge ss
          omega
        have hallnf : ∀ x ∈ ss, isStageNeedFit x = false :=
          (lastNeedFitIndex_eq_neg_one_iff ss).mp hneg
        exact (ih (sizeOf ss + 1) (by omega)).2 ss (by omega) hssOk hallnf c t
    · intro l hl hok hnf c t
      match l with
      | [] => rw [transformAll_nil, applyAll_nil]
      | s :: rest =>
        have hsz : sizeOf (s :: rest) = 1 + sizeOf s + sizeOf rest :=
          List.cons.sizeOf_spec s rest
        rw [transformAll_cons, applyAll_cons]
        rw [stagesOk_cons] at hok
        simp only [Bool.and_eq_true] at hok
        have h1 : stageTransform s c t = .ok (stageApply s c t) :=
          (ih (sizeOf s + 1) (by omega)).1 s (by omega) hok.1
            (hnf s (List.mem_cons_self s rest)) c t
        rw [h1]
        exact (ih (sizeOf rest + 1) (by omega)).2 rest (by omega) hok.2
          (fun x hx => hnf x (List.mem_cons_of_mem s hx)) c _

theorem stageTransform_ok_of_ok (s : Stage Ctx Table) (hok : StageOk s = true)
    (hnf : isStageNeedFit s = false) (c : Ctx) (t : Table) :
    stageTransform s c t = .ok (stageApply s c t) :=
  (transform_ok_core (sizeOf s + 1)).1 s (by omega) hok hnf c t

theorem transformAll_ok_of_ok (l : List (Stage Ctx Table)) (hok : stagesOk l = true)
    (hnf : ∀ s ∈ l, isStageNeedFit s = false) (c : Ctx) (t : Table) :
    transformAll l c t = .ok (applyAll l c t) :=
  (transform_ok_core (sizeOf l + 1)).2 l (by omega) hok hnf c t

theorem pipeline_transform_notfit (p : Pipeline Ctx Table) (hok : PipelineOk p = true)
    (hnf : p.need_fit = false) (c : Ctx) (input : Table) :
    Pipeline.transform p c input = .ok (applyAll p.stages c input) := by
  simp only [PipelineOk, Bool.and_eq_true, decide_eq_true_eq] at hok
  obtain ⟨hlast, hssOk⟩ := hok
  have hidx : ¬ (0 ≤ p.last_estimator_index) := by
    simp only [Pipeline.need_fit, decide_eq_false_iff_not] at hnf
    exact hnf
  have hneg : lastNeedFitIndex p.stages = -1 := by
    have := lastNeedFitIndex_ge p.stages
    omega
  have hallnf : ∀ x ∈ p.stages, isStageNeedFit x = false :=
    (lastNeedFitIndex_eq_neg_one_iff p.stages).mp hneg
  unfold Pipeline.transform
  rw [hnf]
  simp only [Bool.false_eq_true, if_false]
  exact transformAll_ok_of_ok p.stages hssOk hallnf c input

/-! ### Stages without estimators never need fitting -/

theorem noEst_core : ∀ n : Nat,
    (∀ s : Stage Ctx Table, sizeOf s < n → StageOk s = true → stageNoEst s = true →
      isStageNeedFit s = false) ∧
    (∀ l : List (Stage Ctx Table), sizeOf l < n → stagesOk l = true → stagesNoEst l = true →
      ∀ s ∈ l, isStageNeedFit s = false) := by
  intro n
  induction n using Nat.strong_induction_on with
  | _ n ih =>
    constructor
    · intro s hs hok hne
      match s with
      | .transformer f => rfl
      | .estimator f => rw [stageNoEst_estimator] at hne; cases hne
      | .invalid => rw [StageOk_invalid] at hok; cases hok
      | .pipe ss idx =>
        have hsz : sizeOf (Stage.pipe ss idx : Stage Ctx Table) = 1 + sizeOf ss + sizeOf idx :=
          Stage.pipe.sizeOf_spec ss idx
        rw [StageOk_pipe] at hok
        simp only [Bool.and_eq_true, decide_eq_true_eq] at hok
        obtain ⟨hlast, hssOk⟩ := hok
        rw [stageNoEst_pipe] at hne
        have hallnf : ∀ x ∈ ss, isStageNeedFit x = false :=
          (ih (sizeOf ss + 1) (by omega)).2 ss (by omega) hssOk hne
        have hneg : lastNeedFitIndex ss = -1 :=
          (lastNeedFitIndex_eq_neg_one_iff ss).mpr hallnf
        simp only [isStageNeedFit, decide_eq_false_iff_not]
        omega
    · intro l hl hok hne s hs
      match l with
      | [] => simp at hs
      | a :: rest =>
        have hsz : sizeOf (a :: rest) = 1 + sizeOf a + sizeOf rest :=
          List.cons.sizeOf_spec a rest
        rw [stagesOk_cons] at hok
        rw [stagesNoEst_cons] at hne
        simp only [Bool.and_eq_true] at hok hne
        rw [List.mem_cons] at hs
        rcases hs with rfl | hs
        · exact (ih (sizeOf s + 1) (by omega)).1 s (by omega) hok.1 hne.1
        · exact (ih (sizeOf rest + 1) (by omega)).2 rest (by omega) hok.2 hne.2 s hs

theorem stageNeedFit_false_of_noEst (s : Stage Ctx Table) (hok : StageOk s = true)
    (hne : stageNoEst s = true) : isStageNeedFit s = false :=
  (noEst_core (sizeOf s + 1)).1 s (by omega) hok hne

theorem stagesNeedFit_false_of_noEst (l : List (Stage Ctx Table)) (hok : stagesOk l = true)
    (hne : stagesNoEst l = true) : ∀ s ∈ l, isStageNeedFit s = false :=
  (noEst_core (sizeOf l + 1)).2 l (by omega) hok hne


/-! ### Single-step reductions once a sub-call's result is known -/

theorem transformAll_cons_ok (s : Stage Ctx Table) (rest : List (Stage Ctx Table))
    (c : Ctx) (t out : Table) (h : stageTransform s c t = .ok out) :
    transformAll (s :: rest) c t = transformAll rest c out := by
  rw [transformAll_cons, h]

theorem transformAll_cons_err (s : Stage Ctx Table) (rest : List (Stage Ctx Table))
    (c : Ctx) (t : Table) (e : PipeErr) (h : stageTransform s c t = .error e) :
    transformAll (s :: rest) c t = .error e := by
  rw [transformAll_cons, h]

theorem pipeFit_step (ss : List (Stage Ctx Table)) (idx : Int) (c : Ctx) (t : Table)
    (ts : List (Stage Ctx Table)) (h : fitLoop ss 0 idx c t = .ok ts) :
    pipeFit ss idx c t = mkPipeline ts := by
  rw [pipeFit_eq, h]

theorem stageFit_pipe_step (ss : List (Stage Ctx Table)) (idx : Int) (c : Ctx) (t : Table)
    (q : Pipeline Ctx Table) (h : pipeFit ss idx c t = .ok q) :
    stageFit (.pipe ss idx) c t = .ok (.pipe q.stages q.last_estimator_index) := by
  rw [stageFit_pipe, h]

theorem fitLoop_cons_in (s : Stage Ctx Table) (rest : List (Stage Ctx Table))
    (i : Nat) (L : Int) (c : Ctx) (input : Table) (t2 : Stage Ctx Table) (out : Table)
    (ts2 : List (Stage Ctx Table)) (hi : (i : Int) ≤ L)
    (hfit : (if isStageNeedFit s then stageFit s c input else .ok s) = .ok t2)
    (htr : stageTransform t2 c input = .ok out)
    (hrest : fitLoop rest (i + 1) L c out = .ok ts2) :
    fitLoop (s :: rest) i L c input = .ok (t2 :: ts2) := by
  rw [fitLoop_cons, if_pos hi, hfit]
  simp only [htr, hrest]

theorem fitLoop_cons_out (s : Stage Ctx Table) (rest : List (Stage Ctx Table))
    (i : Nat) (L : Int) (c : Ctx) (input : Table) (ts2 : List (Stage Ctx Table))
    (hi : ¬ (i : Int) ≤ L) (hrest : fitLoop rest (i + 1) L c input = .ok ts2) :
    fitLoop (s :: rest) i L c input = .ok (s :: ts2) := by
  rw [fitLoop_cons, if_neg hi, hrest]

/-! ### Fitting a well-formed pipeline succeeds and yields a fitted pipeline -/

theorem fit_core : ∀ n : Nat,
    (∀ s : Stage Ctx Table, sizeOf s < n → StageOk s = true → isStageNeedFit s = true →
      ∀ c t, ∃ s2, stageFit s c t = .ok s2 ∧ StageOk s2 = true ∧ isStageNeedFit s2 = false) ∧
    (∀ l : List (Stage Ctx Table), sizeOf l < n → ∀ (i0 : Nat) (L : Int) (c : Ctx) (t : Table),
      stagesOk l = true →
      (∀ (j : Nat) (hj : j < l.length), L < (i0 : Int) + (j : Int) →
        isStageNeedFit (l.get ⟨j, hj⟩) = false) →
      ∃ ts, fitLoop l i0 L c t = .ok ts ∧ stagesOk ts = true ∧
        (∀ s2 ∈ ts, isStageNeedFit s2 = false) ∧ ts.length = l.length) := by
  intro n
  induction n using Nat.strong_induction_on with
  | _ n ih =>
    constructor
    · intro s hs hok hnf c t
      match s with
      | .transformer f => simp [isStageNeedFit] at hnf
      | .invalid => rw [StageOk_invalid] at hok; cases hok
      | .estimator f =>
        exact ⟨.transformer (f c t), stageFit_estimator f c t, StageOk_transformer _, rfl⟩
      | .pipe ss idx =>
        have hsz : sizeOf (Stage.pipe ss idx : Stage Ctx Table) = 1 + sizeOf ss + sizeOf idx :=
          Stage.pipe.sizeOf_spec ss idx
        rw [StageOk_pipe] at hok
        simp only [Bool.and_eq_true, decide_eq_true_eq] at hok
        obtain ⟨hlast, hssOk⟩ := hok
        have hbeyond : ∀ (j : Nat) (hj : j < ss.length), idx < (0 : Int) + (j : Int) →
            isStageNeedFit (ss.get ⟨j, hj⟩) = false := by
          intro j hj hlt
          refine needFit_false_of_lt ss j hj ?_
          rw [← hlast]
          omega
        obtain ⟨ts, hts, htsOk, htsNf, htsLen⟩ :=
          (ih (sizeOf ss + 1) (by omega)).2 ss (by omega) 0 idx c t hssOk hbeyond
        have htsNe : ∀ x ∈ ts, x ≠ Stage.invalid := fun x hx =>
          StageOk_ne_invalid x (stagesOk_mem ts htsOk x hx)
        obtain ⟨q, hq, hqst, hqidx⟩ := mkPipeline_ok_of_ne_invalid ts htsNe
        have hneg : lastNeedFitIndex ts = -1 :=
          (lastNeedFitIndex_eq_neg_one_iff ts).mpr htsNf
        refine ⟨.pipe q.stages q.last_estimator_index, ?_, ?_, ?_⟩
        · exact stageFit_pipe_step ss idx c t q ((pipeFit_step ss idx c t ts hts).trans hq)
        · rw [StageOk_pipe, hqst, hqidx]
          simp [hssOk, htsOk]
        · simp only [isStageNeedFit, decide_eq_false_iff_not]
          rw [hqidx, hneg]
          omega
    · intro l hl i0 L c t hok hbeyond
      match l with
      | [] => exact ⟨[], fitLoop_nil i0 L c t, stagesOk_nil, by simp, rfl⟩
      | s :: rest =>
        have hsz : sizeOf (s :: rest) = 1 + sizeOf s + sizeOf rest :=
          List.cons.sizeOf_spec s rest
        rw [stagesOk_cons] at hok
        simp only [Bool.and_eq_true] at hok
        obtain ⟨hsOk, hrestOk⟩ := hok
        have hbeyond2 : ∀ (j : Nat) (hj : j < rest.length),
            L < ((i0 + 1 : Nat) : Int) + (j : Int) →
            isStageNeedFit (rest.get ⟨j, hj⟩) = false := by
          intro j hj hlt
          exact hbeyond (j + 1) (Nat.succ_lt_succ hj) (by push_cast at hlt ⊢; omega)
        by_cases hi : (i0 : Int) ≤ L
        · by_cases hs : isStageNeedFit s
          · obtain ⟨t2, hfit2, ht2Ok, ht2Nf⟩ :=
              (ih (sizeOf s + 1) (by omega)).1 s (by omega) hsOk hs c t
            have htr : stageTransform t2 c t = .ok (stageApply t2 c t) :=
              stageTransform_ok_of_ok t2 ht2Ok ht2Nf c t
            obtain ⟨ts2, hts2, hts2Ok, hts2Nf, hts2Len⟩ :=
              (ih (sizeOf rest + 1) (by omega)).2 rest (by omega) (i0 + 1) L c
                (stageApply t2 c t) hrestOk hbeyond2
            refine ⟨t2 :: ts2, ?_, ?_, ?_, by simp [hts2Len]⟩
            · exact fitLoop_cons_in s rest i0 L c t t2 _ ts2 hi
                (by rw [if_pos hs]; exact hfit2) htr hts2
            · rw [stagesOk_cons]
              simp [ht2Ok, hts2Ok]
            · intro x hx
              rw [List.mem_cons] at hx
              rcases hx with rfl | hx
              · exact ht2Nf
              · exact hts2Nf x hx
          · have htr : stageTransform s c t = .ok (stageApply s c t) :=
              stageTransform_ok_of_ok s hsOk (by simpa using hs) c t
            obtain ⟨ts2, hts2, hts2Ok, hts2Nf, hts2Len⟩ :=
              (ih (sizeOf rest + 1) (by omega)).2 rest (by omega) (i0 + 1) L c
                (stageApply s c t) hrestOk hbeyond2
            refine ⟨s :: ts2, ?_, ?_, ?_, by simp [hts2Len]⟩
            · exact fitLoop_cons_in s rest i0 L c t s _ ts2 hi
                (by rw [if_neg hs]) htr hts2
            · rw [stagesOk_cons]
              simp [hsOk, hts2Ok]
            · intro x hx
              rw [List.mem_cons] at hx
              rcases hx with rfl | hx
              · simpa using hs
              · exact hts2Nf x hx
        · have hsNf : isStageNeedFit s = false :=
            hbeyond 0 (Nat.succ_pos _) (by push_cast; omega)
          obtain ⟨ts2, hts2, hts2Ok, hts2Nf, hts2Len⟩ :=
            (ih (sizeOf rest + 1) (by omega)).2 rest (by omega) (i0 + 1) L c
              t hrestOk hbeyond2
          refine ⟨s :: ts2, ?_, ?_, ?_, by simp [hts2Len]⟩
          · exact fitLoop_cons_out s rest i0 L c t ts2 hi hts2
          · rw [stagesOk_cons]
            simp [hsOk, hts2Ok]
          · intro x hx
            rw [List.mem_cons] at hx
            rcases hx with rfl | hx
            · exact hsNf
            · exact hts2Nf x hx

theorem stageFit_ok_of_needFit (s : Stage Ctx Table) (hok : StageOk s = true)
    (hnf : isStageNeedFit s = true) (c : Ctx) (t : Table) :
    ∃ s2, stageFit s c t = .ok s2 ∧ StageOk s2 = true ∧ isStageNeedFit s2 = false :=
  (fit_core (sizeOf s + 1)).1 s (by omega) hok hnf c t

theorem fitLoop_ok (l : List (Stage Ctx Table)) (i0 : Nat) (L : Int) (c : Ctx) (t : Table)
    (hok : stagesOk l = true)
    (hbeyond : ∀ (j : Nat) (hj : j < l.length), L < (i0 : Int) + (j : Int) →
      isStageNeedFit (l.get ⟨j, hj⟩) = false) :
    ∃ ts, fitLoop l i0 L c t = .ok ts ∧ stagesOk ts = true ∧
      (∀ s2 ∈ ts, isStageNeedFit s2 = false) ∧ ts.length = l.length :=
  (fit_core (sizeOf l + 1)).2 l (by omega) i0 L c t hok hbeyond

theorem pipeline_fit_total (p : Pipeline Ctx Table) (hok : PipelineOk p = true)
    (c : Ctx) (input : Table) :
    ∃ q, Pipeline.fit p c input = .ok q ∧ PipelineOk q = true ∧ q.need_fit = false ∧
      q.stages.length = p.stages.length := by
  simp only [PipelineOk, Bool.and_eq_true, decide_eq_true_eq] at hok
  obtain ⟨hlast, hssOk⟩ := hok
  have hbeyond : ∀ (j : Nat) (hj : j < p.stages.length),
      p.last_estimator_index < (0 : Int) + (j : Int) →
      isStageNeedFit (p.stages.get ⟨j, hj⟩) = false := by
    intro j hj hlt
    refine needFit_false_of_lt p.stages j hj ?_
    rw [← hlast]
    omega
  obtain ⟨ts, hts, htsOk, htsNf, htsLen⟩ :=
    fitLoop_ok p.stages 0 p.last_estimator_index c input hssOk hbeyond
  have htsNe : ∀ x ∈ ts, x ≠ Stage.invalid := fun x hx =>
    StageOk_ne_invalid x (stagesOk_mem ts htsOk x hx)
  obtain ⟨q, hq, hqst, hqidx⟩ := mkPipeline_ok_of_ne_invalid ts htsNe
  have hneg : lastNeedFitIndex ts = -1 :=
    (lastNeedFitIndex_eq_neg_one_iff ts).mpr htsNf
  refine ⟨q, ?_, ?_, ?_, ?_⟩
  · unfold Pipeline.fit
    exact (pipeFit_step p.stages p.last_estimator_index c input ts hts).trans hq
  · simp only [PipelineOk, Bool.and_eq_true, decide_eq_true_eq]
    rw [hqst, hqidx]
    exact ⟨rfl, htsOk⟩
  · simp only [Pipeline.need_fit, decide_eq_false_iff_not]
    rw [hqidx, hneg]
    omega
  · rw [hqst, htsLen]


/-! ### Exact characterization of the fitting loop -/

theorem fitLoop_spec (l : List (Stage Ctx Table)) :
    ∀ (i0 : Nat) (L : Int) (c : Ctx) (input : Table) (ts : List (Stage Ctx Table)),
    fitLoop l i0 L c input = .ok ts →
    ts.length = l.length ∧
    (∀ (j : Nat) (hj : j < l.length) (hj2 : j < ts.length),
      L < (i0 : Int) + (j : Int) → ts.get ⟨j, hj2⟩ = l.get ⟨j, hj⟩) ∧
    (∀ (j : Nat) (hj : j < l.length) (hj2 : j < ts.length), (i0 : Int) + (j : Int) ≤ L →
      ∃ inp, transformAll (ts.take j) c input = .ok inp ∧
        (isStageNeedFit (l.get ⟨j, hj⟩) = true →
          stageFit (l.get ⟨j, hj⟩) c inp = .ok (ts.get ⟨j, hj2⟩)) ∧
        (isStageNeedFit (l.get ⟨j, hj⟩) = false →
          ts.get ⟨j, hj2⟩ = l.get ⟨j, hj⟩)) := by
  induction l with
  | nil =>
    intro i0 L c input ts h
    rw [fitLoop_nil] at h
    injection h with h2
    subst h2
    refine ⟨rfl, ?_, ?_⟩ <;> (intro j hj; simp at hj)
  | cons s rest ih =>
    intro i0 L c input ts h
    rw [fitLoop_cons] at h
    by_cases hi : (i0 : Int) ≤ L
    · rw [if_pos hi] at h
      cases hfit : (if isStageNeedFit s then stageFit s c input else .ok s) with
      | error e => simp only [hfit] at h; exact Except.noConfusion h
      | ok t2 =>
        simp only [hfit] at h
        cases htr : stageTransform t2 c input with
        | error e => simp only [htr] at h; exact Except.noConfusion h
        | ok out =>
          simp only [htr] at h
          cases hrest : fitLoop rest (i0 + 1) L c out with
          | error e => simp only [hrest] at h; exact Except.noConfusion h
          | ok ts2 =>
            simp only [hrest, Except.ok.injEq] at h
            subst h
            obtain ⟨ihLen, ihBeyond, ihIn⟩ := ih (i0 + 1) L c out ts2 hrest
            refine ⟨by simp [ihLen], ?_, ?_⟩
            · intro j hj hj2 hlt
              match j, hj, hj2, hlt with
              | 0, hj, hj2, hlt => exfalso; push_cast at hlt; omega
              | j + 1, hj, hj2, hlt =>
                exact ihBeyond j (by simpa using hj) (by simpa using hj2)
                  (by push_cast at hlt ⊢; omega)
            · intro j hj hj2 hle
              match j, hj, hj2, hle with
              | 0, hj, hj2, hle =>
                refine ⟨input, ?_, ?_, ?_⟩
                · rw [List.take_zero, transformAll_nil]
                · intro hsT
                  have hsT2 : isStageNeedFit s = true := hsT
                  rw [if_pos hsT2] at hfit
                  exact hfit
                · intro hsF
                  have hsF2 : isStageNeedFit s = false := hsF
                  simp only [hsF2, Bool.false_eq_true, if_false, Except.ok.injEq] at hfit
                  exact hfit.symm
              | j + 1, hj, hj2, hle =>
                obtain ⟨inp, hinp, hfitj, hkeepj⟩ :=
                  ihIn j (by simpa using hj) (by simpa using hj2)
                    (by push_cast at hle ⊢; omega)
                refine ⟨inp, ?_, hfitj, hkeepj⟩
                rw [List.take_succ_cons, transformAll_cons_ok t2 _ c input out htr]
                exact hinp
    · rw [if_neg hi] at h
      cases hrest : fitLoop rest (i0 + 1) L c input with
      | error e => simp only [hrest] at h; exact Except.noConfusion h
      | ok ts2 =>
        simp only [hrest, Except.ok.injEq] at h
        subst h
        obtain ⟨ihLen, ihBeyond, ihIn⟩ := ih (i0 + 1) L c input ts2 hrest
        refine ⟨by simp [ihLen], ?_, ?_⟩
        · intro j hj hj2 hlt
          match j, hj, hj2, hlt with
          | 0, hj, hj2, hlt => rfl
          | j + 1, hj, hj2, hlt =>
            exact ihBeyond j (by simpa using hj) (by simpa using hj2)
              (by push_cast at hlt ⊢; omega)
        · intro j hj hj2 hle
          exfalso
          omega


/-! ### The fitting loop is the identity below index 0 -/

theorem fitLoop_of_neg (l : List (Stage Ctx Table)) :
    ∀ (i0 : Nat) (L : Int), L < 0 → ∀ (c : Ctx) (t : Table),
      fitLoop l i0 L c t = .ok l := by
  induction l with
  | nil => intro i0 L hL c t; exact fitLoop_nil i0 L c t
  | cons s rest ih =>
    intro i0 L hL c t
    have hi : ¬ ((i0 : Int) ≤ L) := by omega
    exact fitLoop_cons_out s rest i0 L c t rest hi (ih (i0 + 1) L hL c t)

/-! ### The name translation of `_make_java_param` -/

theorem enumFrom_insert_eq_tail (rest : List Char) :
    ∀ k : Nat, k ≠ 0 →
      ((List.enumFrom k rest).map fun p =>
        if p.1 ≠ 0 ∧ p.2.isUpper then ['_', p.2] else [p.2]).flatten =
      specInsertSepTail rest := by
  induction rest with
  | nil => intro k hk; rfl
  | cons ch rest2 ih =>
    intro k hk
    show ((((k, ch) :: List.enumFrom (k + 1) rest2).map fun p =>
        if p.1 ≠ 0 ∧ p.2.isUpper then ['_', p.2] else [p.2]).flatten) = _
    rw [List.map_cons, List.flatten_cons, ih (k + 1) (by omega)]
    show (if k ≠ 0 ∧ ch.isUpper then ['_', ch] else [ch]) ++ specInsertSepTail rest2 =
      (if ch.isUpper then ['_', ch] else [ch]) ++ specInsertSepTail rest2
    congr 1
    by_cases hu : ch.isUpper
    · simp [hk, hu]
    · simp [hk, hu]

theorem reSub_eq_specInsert (name : List Char) :
    reSubBeforeUpper name =
      (match name with
       | [] => []
       | c0 :: rest => c0 :: specInsertSepTail rest) := by
  cases name with
  | nil => rfl
  | cons c0 rest =>
    show ((((0, c0) :: List.enumFrom 1 rest).map fun p =>
        if p.1 ≠ 0 ∧ p.2.isUpper then ['_', p.2] else [p.2]).flatten) = c0 :: specInsertSepTail rest
    rw [List.map_cons, List.flatten_cons, enumFrom_insert_eq_tail rest 1 (by omega)]
    simp


/-! ### Claim theorems -/

/-- C4: appending a stage that satisfies neither the Estimator nor the
Transformer capability always raises `InvalidStageError`, and the pipeline's
`stages` and `last_estimator_index` after the call are exactly the pipeline
state before the call (append is atomic). -/
theorem append_invalid_atomic (p : Pipeline Ctx Table) (s : Stage Ctx Table)
    (he : isEstimatorStage s = false) (ht : isTransformerStage s = false) :
    p.append_stage s = (p, .error .invalidStage) := by
  have hs : s = .invalid := by
    cases s with
    | transformer f => exact absurd ht (by simp [isTransformerStage])
    | estimator f => exact absurd he (by simp [isEstimatorStage])
    | invalid => rfl
    | pipe ss idx => exact absurd ht (by simp [isTransformerStage])
  subst hs
  rfl

/-- Witness for C4 at a concrete pipeline and the concrete invalid stage. -/
theorem append_invalid_atomic_inst :
    isEstimatorStage (Stage.invalid : Stage Unit Nat) = false ∧
    isTransformerStage (Stage.invalid : Stage Unit Nat) = false ∧
    Pipeline.append_stage (⟨[sampleT], -1⟩ : Pipeline Unit Nat) Stage.invalid =
      (⟨[sampleT], -1⟩, .error .invalidStage) :=
  ⟨rfl, rfl, append_invalid_atomic ⟨[sampleT], -1⟩ Stage.invalid rfl rfl⟩

/-- C8: `Pipeline.fit` never mutates the receiver — in the state-passing form
of the method the receiver's `stages` and `last_estimator_index` after the
call equal the values before the call, and the call's result is the
freshly built pipeline `Pipeline.fit` returns. -/
theorem fit_does_not_mutate_receiver (p : Pipeline Ctx Table) (c : Ctx) (input : Table) :
    (p.fitRun c input).1.stages = p.stages ∧
    (p.fitRun c input).1.last_estimator_index = p.last_estimator_index ∧
    (p.fitRun c input).2 = p.fit c input :=
  ⟨rfl, rfl, rfl⟩

/-- C9: the parameter-name translation of `_make_java_param` (the regex
`re.sub` followed by `.upper()`) equals inserting a separator before each
uppercase letter not at the start of the string and then uppercasing the
whole string, e.g. `maxIter ↦ MAX_ITER`, with each of several consecutive
uppercase letters receiving its own separator, e.g. `myABC ↦ MY_A_B_C`. -/
theorem make_java_param_matches_spec :
    (∀ name : List Char, makeJavaParamName name = specSnakeCase name) ∧
    makeJavaParamName "maxIter".toList = "MAX_ITER".toList ∧
    makeJavaParamName "myABC".toList = "MY_A_B_C".toList := by
  refine ⟨?_, by decide, by decide⟩
  intro name
  unfold makeJavaParamName specSnakeCase
  rw [reSub_eq_specInsert]

/-- C10: a freshly constructed empty `Pipeline()` has `need_fit() == False`,
its `transform` returns the input unchanged, and its `fit` returns a new
empty pipeline whose value does not depend on the input. -/
theorem empty_pipeline_behavior (c : Ctx) (input : Table) :
    (Pipeline.empty : Pipeline Ctx Table).need_fit = false ∧
    Pipeline.transform (Pipeline.empty : Pipeline Ctx Table) c input = .ok input ∧
    Pipeline.fit (Pipeline.empty : Pipeline Ctx Table) c input = .ok Pipeline.empty ∧
    (∀ input2 : Table, Pipeline.fit (Pipeline.empty : Pipeline Ctx Table) c input =
      Pipeline.fit Pipeline.empty c input2) := by
  have hfit : ∀ inp : Table,
      Pipeline.fit (Pipeline.empty : Pipeline Ctx Table) c inp = .ok Pipeline.empty := by
    intro inp
    unfold Pipeline.fit
    show pipeFit [] (-1) c inp = .ok Pipeline.empty
    rw [pipeFit_step [] (-1) c inp [] (fitLoop_nil 0 (-1) c inp)]
    rfl
  refine ⟨rfl, ?_, hfit input, fun input2 => (hfit input).trans (hfit input2).symm⟩
  unfold Pipeline.transform
  rw [show (Pipeline.empty : Pipeline Ctx Table).need_fit = false from rfl]
  simp only [Bool.false_eq_true, if_false]
  exact transformAll_nil c input


/-- C2: for every stage sequence accepted by `Pipeline(stages)` (which appends
stage by stage), after each successful append — i.e. for every prefix of the
sequence — `last_estimator_index` is the maximum index of a stage that needs
fitting, or the sentinel `-1` when no such stage exists. -/
theorem append_maintains_last_trainable (l : List (Stage Ctx Table)) (p : Pipeline Ctx Table)
    (h : mkPipeline l = .ok p) :
    p.stages = l ∧
    ∀ k, k ≤ l.length →
      ∃ q : Pipeline Ctx Table, mkPipeline (l.take k) = .ok q ∧
        IsLastNeedFit (l.take k) q.last_estimator_index := by
  refine ⟨(mkPipeline_spec l p h).1, ?_⟩
  intro k _hk
  obtain ⟨r, hr1, hr2⟩ := mkPipelineAux_append (l.take k) (l.drop k) ⟨[], -1⟩ p
    (by rw [List.take_append_drop]; exact h)
  refine ⟨r, hr1, ?_⟩
  rw [(mkPipeline_spec (l.take k) r hr1).2]
  exact isLastNeedFit_lastNeedFitIndex (l.take k)

/-- Witness for C2 at the concrete sequence `[sampleT, sampleE]`. -/
theorem append_maintains_last_trainable_inst :
    mkPipeline [sampleT, sampleE] = .ok (⟨[sampleT, sampleE], 1⟩ : Pipeline Unit Nat) ∧
    ((⟨[sampleT, sampleE], 1⟩ : Pipeline Unit Nat).stages = [sampleT, sampleE] ∧
      ∀ k, k ≤ [sampleT, sampleE].length →
        ∃ q : Pipeline Unit Nat, mkPipeline ([sampleT, sampleE].take k) = .ok q ∧
          IsLastNeedFit ([sampleT, sampleE].take k) q.last_estimator_index) :=
  ⟨rfl, append_maintains_last_trainable [sampleT, sampleE] ⟨[sampleT, sampleE], 1⟩ rfl⟩

/-- C3: on a structurally well-formed pipeline, `transform` raises
`NotFittedError` exactly when `need_fit()` is true, and otherwise returns the
left-to-right fold of the stages' transforms over the input. -/
theorem transform_raises_iff_need_fit (p : Pipeline Ctx Table) (hok : PipelineOk p = true)
    (c : Ctx) (input : Table) :
    (p.transform c input = .error .notFitted ↔ p.need_fit = true) ∧
    (p.need_fit = false → p.transform c input = .ok (applyAll p.stages c input)) := by
  have hofit := pipeline_transform_notfit p hok
  constructor
  · constructor
    · intro herr
      cases hneed : p.need_fit
      · rw [hofit hneed c input] at herr
        exact Except.noConfusion herr
      · rfl
    · intro hneed
      unfold Pipeline.transform
      rw [hneed]
      simp
  · intro hnf
    exact hofit hnf c input

/-- Witness for C3 at a concrete one-transformer pipeline. -/
theorem transform_raises_iff_need_fit_inst :
    PipelineOk (⟨[sampleT], -1⟩ : Pipeline Unit Nat) = true ∧
    (((⟨[sampleT], -1⟩ : Pipeline Unit Nat).transform () 4 = .error .notFitted ↔
        (⟨[sampleT], -1⟩ : Pipeline Unit Nat).need_fit = true) ∧
      ((⟨[sampleT], -1⟩ : Pipeline Unit Nat).need_fit = false →
        (⟨[sampleT], -1⟩ : Pipeline Unit Nat).transform () 4 =
          .ok (applyAll [sampleT] () 4))) := by
  have hok : PipelineOk (⟨[sampleT], -1⟩ : Pipeline Unit Nat) = true := by
    simp [PipelineOk, stagesOk_cons, stagesOk_nil, StageOk_transformer,
      lastNeedFitIndex_cons, lastNeedFitIndex_nil, sampleT, isStageNeedFit]
  exact ⟨hok, transform_raises_iff_need_fit _ hok () 4⟩

/-- C5 as frozen is false: the empty nested pipeline is Estimator-capable
(`isinstance(stage, Estimator)` holds for every `Pipeline`), yet the outer
pipeline `Pipeline([Pipeline()])` that contains it has `need_fit() == False`
and its `transform` succeeds instead of raising `NotFittedError`. -/
theorem need_fit_false_with_estimator_capable_stage :
    isEstimatorStage (Stage.pipe ([] : List (Stage Unit Nat)) (-1)) = true ∧
    mkPipeline [Stage.pipe ([] : List (Stage Unit Nat)) (-1)] =
      .ok ⟨[Stage.pipe [] (-1)], -1⟩ ∧
    (⟨[Stage.pipe [] (-1)], -1⟩ : Pipeline Unit Nat).need_fit = false ∧
    (⟨[Stage.pipe [] (-1)], -1⟩ : Pipeline Unit Nat).transform () 5 = .ok 5 := by
  refine ⟨rfl, rfl, rfl, ?_⟩
  have hst : stageTransform (Stage.pipe ([] : List (Stage Unit Nat)) (-1)) () 5 = .ok 5 := by
    rw [stageTransform_pipe, if_neg (by omega)]
    exact transformAll_nil () 5
  unfold Pipeline.transform
  rw [show (⟨[Stage.pipe [] (-1)], -1⟩ : Pipeline Unit Nat).need_fit = false from rfl]
  simp only [Bool.false_eq_true, if_false]
  rw [transformAll_cons_ok _ _ _ _ 5 hst]
  exact transformAll_nil () 5

/-- C5 amended: every pipeline built by appending stages that contains at
least one stage that *needs fitting* (a non-Pipeline Estimator, or a nested
Pipeline whose `need_fit()` is true) has `need_fit() == True`, and its
`transform` always raises `NotFittedError`; an Estimator-capable nested
Pipeline whose own `need_fit()` is false does not count. -/
theorem need_fit_of_needing_stage (l : List (Stage Ctx Table)) (p : Pipeline Ctx Table)
    (h : mkPipeline l = .ok p) (hex : ∃ s ∈ l, isStageNeedFit s = true) :
    p.need_fit = true ∧
    ∀ (c : Ctx) (input : Table), p.transform c input = .error .notFitted := by
  obtain ⟨hst, hidx⟩ := mkPipeline_spec l p h
  have hne : lastNeedFitIndex l ≠ -1 := by
    rw [Ne, lastNeedFitIndex_eq_neg_one_iff]
    intro hforall
    obtain ⟨s, hsmem, hsfit⟩ := hex
    rw [hforall s hsmem] at hsfit
    cases hsfit
  have hge : 0 ≤ p.last_estimator_index := by
    rw [hidx]
    have := lastNeedFitIndex_ge l
    omega
  have hnf : p.need_fit = true := by
    simp only [Pipeline.need_fit, decide_eq_true_eq]
    exact hge
  refine ⟨hnf, fun c input => ?_⟩
  unfold Pipeline.transform
  rw [hnf]
  simp

/-- Witness for the amended C5 at the concrete pipeline `[sampleE]`. -/
theorem need_fit_of_needing_stage_inst :
    mkPipeline [sampleE] = .ok (⟨[sampleE], 0⟩ : Pipeline Unit Nat) ∧
    (∃ s ∈ [sampleE], isStageNeedFit s = true) ∧
    (⟨[sampleE], 0⟩ : Pipeline Unit Nat).need_fit = true ∧
    (⟨[sampleE], 0⟩ : Pipeline Unit Nat).transform () 3 = .error .notFitted := by
  have hex : ∃ s ∈ [sampleE], isStageNeedFit s = true :=
    ⟨sampleE, List.mem_cons_self _ _, rfl⟩
  have h := need_fit_of_needing_stage [sampleE] ⟨[sampleE], 0⟩ rfl hex
  exact ⟨rfl, hex, h.1, h.2 () 3⟩

/-- C6: a structurally well-formed pipeline with no estimator stage anywhere
(recursively through nested pipelines) has `need_fit() == False`, its `fit`
returns a pipeline whose stage sequence equals its own, and its `transform`
never raises `NotFittedError`. -/
theorem no_estimator_pipeline_fit_transform (p : Pipeline Ctx Table)
    (hok : PipelineOk p = true) (hne : stagesNoEst p.stages = true) :
    p.need_fit = false ∧
    (∀ (c : Ctx) (input : Table), ∃ q : Pipeline Ctx Table,
      p.fit c input = .ok q ∧ q.stages = p.stages) ∧
    (∀ (c : Ctx) (input : Table), p.transform c input ≠ .error .notFitted) := by
  have hparts : p.last_estimator_index = lastNeedFitIndex p.stages ∧
      stagesOk p.stages = true := by
    simpa only [PipelineOk, Bool.and_eq_true, decide_eq_true_eq] using hok
  obtain ⟨hlast, hssOk⟩ := hparts
  have hallnf : ∀ s ∈ p.stages, isStageNeedFit s = false :=
    stagesNeedFit_false_of_noEst p.stages hssOk hne
  have hneg : lastNeedFitIndex p.stages = -1 :=
    (lastNeedFitIndex_eq_neg_one_iff p.stages).mpr hallnf
  have hnf : p.need_fit = false := by
    simp only [Pipeline.need_fit, decide_eq_false_iff_not]
    rw [hlast, hneg]
    omega
  refine ⟨hnf, ?_, ?_⟩
  · intro c input
    have hload : fitLoop p.stages 0 p.last_estimator_index c input = .ok p.stages :=
      fitLoop_of_neg p.stages 0 p.last_estimator_index (by rw [hlast, hneg]; omega) c input
    have hstep : pipeFit p.stages p.last_estimator_index c input = mkPipeline p.stages :=
      pipeFit_step _ _ _ _ _ hload
    have hnei : ∀ s ∈ p.stages, s ≠ Stage.invalid := fun s hs =>
      StageOk_ne_invalid s (stagesOk_mem p.stages hssOk s hs)
    obtain ⟨q, hq, hqst, _⟩ := mkPipeline_ok_of_ne_invalid p.stages hnei
    exact ⟨q, by unfold Pipeline.fit; rw [hstep]; exact hq, hqst⟩
  · intro c input
    rw [pipeline_transform_notfit p hok hnf c input]
    intro hcontra
    exact Except.noConfusion hcontra

/-- Witness for C6 at a concrete one-transformer pipeline. -/
theorem no_estimator_pipeline_fit_transform_inst :
    PipelineOk (⟨[sampleT], -1⟩ : Pipeline Unit Nat) = true ∧
    stagesNoEst [sampleT] = true ∧
    (⟨[sampleT], -1⟩ : Pipeline Unit Nat).need_fit = false ∧
    (∃ q : Pipeline Unit Nat, (⟨[sampleT], -1⟩ : Pipeline Unit Nat).fit () 7 = .ok q ∧
      q.stages = [sampleT]) ∧
    (⟨[sampleT], -1⟩ : Pipeline Unit Nat).transform () 7 ≠ .error .notFitted := by
  have hok : PipelineOk (⟨[sampleT], -1⟩ : Pipeline Unit Nat) = true := by
    simp [PipelineOk, stagesOk_cons, stagesOk_nil, StageOk_transformer,
      lastNeedFitIndex_cons, lastNeedFitIndex_nil, sampleT, isStageNeedFit]
  have hne : stagesNoEst [sampleT] = true := by
    simp [stagesNoEst_cons, stagesNoEst_nil, stageNoEst_transformer, sampleT]
  have h := no_estimator_pipeline_fit_transform _ hok hne
  exact ⟨hok, hne, h.1, h.2.1 () 7, h.2.2 () 7⟩


/-- C1: whenever `Pipeline.fit` returns a pipeline `q`, the recorded stage
sequence `ts` has one entry per original stage; every stage past
`last_estimator_index` is carried over unchanged; every stage at index
`i ≤ last_estimator_index` is replaced by its fit on the threaded input — the
output of the already-recorded earlier stages' transforms on the original
input — when it needs fitting and kept unchanged otherwise; and `q` is the new
pipeline built from `ts`. -/
theorem fit_replaces_and_threads (p : Pipeline Ctx Table) (c : Ctx) (input : Table)
    (q : Pipeline Ctx Table) (h : p.fit c input = .ok q) :
    ∃ ts, fitLoop p.stages 0 p.last_estimator_index c input = .ok ts ∧
      mkPipeline ts = .ok q ∧
      ts.length = p.stages.length ∧
      (∀ (j : Nat) (hj : j < p.stages.length) (hj2 : j < ts.length),
        p.last_estimator_index < (j : Int) →
        ts.get ⟨j, hj2⟩ = p.stages.get ⟨j, hj⟩) ∧
      (∀ (j : Nat) (hj : j < p.stages.length) (hj2 : j < ts.length),
        (j : Int) ≤ p.last_estimator_index →
        ∃ inp, transformAll (ts.take j) c input = .ok inp ∧
          (isStageNeedFit (p.stages.get ⟨j, hj⟩) = true →
            stageFit (p.stages.get ⟨j, hj⟩) c inp = .ok (ts.get ⟨j, hj2⟩)) ∧
          (isStageNeedFit (p.stages.get ⟨j, hj⟩) = false →
            ts.get ⟨j, hj2⟩ = p.stages.get ⟨j, hj⟩)) := by
  unfold Pipeline.fit at h
  rw [pipeFit_eq] at h
  obtain ⟨ts, hts, hmkp⟩ :
      ∃ ts, fitLoop p.stages 0 p.last_estimator_index c input = .ok ts ∧
        mkPipeline ts = .ok q := by
    cases hts : fitLoop p.stages 0 p.last_estimator_index c input with
    | error e => simp only [hts] at h; exact Except.noConfusion h
    | ok ts => simp only [hts] at h; exact ⟨ts, rfl, h⟩
  obtain ⟨hLen, hBeyond, hIn⟩ := fitLoop_spec p.stages 0 p.last_estimator_index c input ts hts
  refine ⟨ts, hts, hmkp, hLen, ?_, ?_⟩
  · intro j hj hj2 hlt
    exact hBeyond j hj hj2 (by push_cast; omega)
  · intro j hj hj2 hle
    exact hIn j hj hj2 (by push_cast; omega)

/-- Witness for C1: fitting `Pipeline([sampleT, sampleE])` on input `0`
produces `Pipeline([sampleT, model])` where the model was fit on
`sampleT.transform 0 = 1`, and the characterization holds there. -/
theorem fit_replaces_and_threads_inst :
    Pipeline.fit (⟨[sampleT, sampleE], 1⟩ : Pipeline Unit Nat) () 0 =
      .ok ⟨[sampleT, Stage.transformer fun _ u => u + 1], -1⟩ ∧
    (∃ ts, fitLoop [sampleT, sampleE] 0 (1 : Int) () 0 = .ok ts ∧
      mkPipeline ts =
        .ok (⟨[sampleT, Stage.transformer fun _ u => u + 1], -1⟩ : Pipeline Unit Nat) ∧
      ts.length = [sampleT, sampleE].length ∧
      (∀ (j : Nat) (hj : j < [sampleT, sampleE].length) (hj2 : j < ts.length),
        (1 : Int) < (j : Int) → ts.get ⟨j, hj2⟩ = [sampleT, sampleE].get ⟨j, hj⟩) ∧
      (∀ (j : Nat) (hj : j < [sampleT, sampleE].length) (hj2 : j < ts.length),
        (j : Int) ≤ (1 : Int) →
        ∃ inp, transformAll (ts.take j) () 0 = .ok inp ∧
          (isStageNeedFit ([sampleT, sampleE].get ⟨j, hj⟩) = true →
            stageFit ([sampleT, sampleE].get ⟨j, hj⟩) () inp = .ok (ts.get ⟨j, hj2⟩)) ∧
          (isStageNeedFit ([sampleT, sampleE].get ⟨j, hj⟩) = false →
            ts.get ⟨j, hj2⟩ = [sampleT, sampleE].get ⟨j, hj⟩))) := by
  have hstep1 : fitLoop [sampleE] 1 1 () 1 = .ok [Stage.transformer fun _ u => u + 1] := by
    refine fitLoop_cons_in sampleE [] 1 1 () 1 (Stage.transformer fun _ u => u + 1) 2 []
      (by omega) ?_ ?_ (fitLoop_nil 2 1 () 2)
    · have hsE : isStageNeedFit sampleE = true := rfl
      rw [if_pos hsE]
      show stageFit (Stage.estimator fun _ t => fun _ u => u + t) () 1 = _
      rw [stageFit_estimator]
    · rw [stageTransform_transformer]
  have hloop : fitLoop [sampleT, sampleE] 0 1 () 0 =
      .ok [sampleT, Stage.transformer fun _ u => u + 1] := by
    refine fitLoop_cons_in sampleT [sampleE] 0 1 () 0 sampleT 1
      [Stage.transformer fun _ u => u + 1] (by omega) ?_ ?_ hstep1
    · rw [if_neg (by simp [sampleT, isStageNeedFit])]
    · show stageTransform (Stage.transformer fun _ t => t + 1) () 0 = _
      rw [stageTransform_transformer]
  have hfit : Pipeline.fit (⟨[sampleT, sampleE], 1⟩ : Pipeline Unit Nat) () 0 =
      .ok ⟨[sampleT, Stage.transformer fun _ u => u + 1], -1⟩ := by
    unfold Pipeline.fit
    show pipeFit [sampleT, sampleE] 1 () 0 = _
    rw [pipeFit_step _ _ _ _ _ hloop]
    rfl
  exact ⟨hfit, fit_replaces_and_threads ⟨[sampleT, sampleE], 1⟩ () 0 _ hfit⟩

/-- C7: for an outer pipeline `Pipeline([inner, TransformerZ])` where the
well-formed nested pipeline `inner` needs fitting, `outer.need_fit()` is true,
and the pipeline returned by `outer.fit` has as its first stage the fitted
inner pipeline — the result of `inner.fit` on the input — whose own
`need_fit()` is false. -/
theorem nested_pipeline_fit (inner : Pipeline Ctx Table) (z : Ctx → Table → Table)
    (c : Ctx) (input : Table) (hok : PipelineOk inner = true) (hnf : inner.need_fit = true) :
    ∃ outer : Pipeline Ctx Table,
      mkPipeline [inner.toStage, .transformer z] = .ok outer ∧
      outer.need_fit = true ∧
      ∃ innerFitted : Pipeline Ctx Table, inner.fit c input = .ok innerFitted ∧
        innerFitted.need_fit = false ∧
        ∃ res : Pipeline Ctx Table, outer.fit c input = .ok res ∧
          res.stages.head? = some innerFitted.toStage := by
  have hneedInner : isStageNeedFit inner.toStage = true := by
    simp only [Pipeline.toStage, isStageNeedFit]
    simpa only [Pipeline.need_fit] using hnf
  have h1 : appendStageE (⟨[], -1⟩ : Pipeline Ctx Table) inner.toStage =
      .ok ⟨[inner.toStage], 0⟩ := by
    simp [appendStageE, Pipeline.append_stage, hneedInner]
  have h2 : appendStageE (⟨[inner.toStage], 0⟩ : Pipeline Ctx Table) (.transformer z) =
      .ok ⟨[inner.toStage, .transformer z], 0⟩ := by
    simp [appendStageE, Pipeline.append_stage, isStageNeedFit, isTransformerStage]
  have hmk : mkPipeline [inner.toStage, .transformer z] =
      .ok (⟨[inner.toStage, .transformer z], 0⟩ : Pipeline Ctx Table) := by
    show mkPipelineAux ⟨[], -1⟩ [inner.toStage, .transformer z] = _
    simp only [mkPipelineAux, h1, h2]
  refine ⟨⟨[inner.toStage, .transformer z], 0⟩, hmk, rfl, ?_⟩
  obtain ⟨q, hq, hqOk, hqNf, _⟩ := pipeline_fit_total inner hok c input
  refine ⟨q, hq, hqNf, ?_⟩
  have hqfit : pipeFit inner.stages inner.last_estimator_index c input = .ok q := hq
  have hsf : stageFit inner.toStage c input = .ok (.pipe q.stages q.last_estimator_index) :=
    stageFit_pipe_step inner.stages inner.last_estimator_index c input q hqfit
  have hqsOk : StageOk (Stage.pipe q.stages q.last_estimator_index) = true := by
    rw [StageOk_pipe]
    have hparts : q.last_estimator_index = lastNeedFitIndex q.stages ∧
        stagesOk q.stages = true := by
      simpa only [PipelineOk, Bool.and_eq_true, decide_eq_true_eq] using hqOk
    simp [hparts.1, hparts.2]
  have hqsNf : isStageNeedFit (Stage.pipe q.stages q.last_estimator_index) = false := by
    simp only [isStageNeedFit]
    simpa only [Pipeline.need_fit] using hqNf
  have htr : stageTransform (Stage.pipe q.stages q.last_estimator_index) c input =
      .ok (stageApply (Stage.pipe q.stages q.last_estimator_index) c input) :=
    stageTransform_ok_of_ok _ hqsOk hqsNf c input
  have hloop1 : fitLoop [(.transformer z : Stage Ctx Table)] 1 0 c
      (stageApply (Stage.pipe q.stages q.last_estimator_index) c input) =
      .ok [.transformer z] :=
    fitLoop_cons_out _ [] 1 0 c _ [] (by omega) (fitLoop_nil 2 0 c _)
  have hloop : fitLoop [inner.toStage, .transformer z] 0 0 c input =
      .ok [.pipe q.stages q.last_estimator_index, .transformer z] :=
    fitLoop_cons_in inner.toStage [.transformer z] 0 0 c input
      (.pipe q.stages q.last_estimator_index) _ [.transformer z]
      (by omega) (by rw [if_pos hneedInner]; exact hsf) htr hloop1
  have hnei : ∀ s ∈ [(.pipe q.stages q.last_estimator_index : Stage Ctx Table),
      .transformer z], s ≠ Stage.invalid := by
    intro s hs
    rw [List.mem_cons] at hs
    rcases hs with rfl | hs
    · exact fun hcontra => Stage.noConfusion hcontra
    · rw [List.mem_cons] at hs
      rcases hs with rfl | hs
      · exact fun hcontra => Stage.noConfusion hcontra
      · simp at hs
  obtain ⟨res, hres, hresst, _⟩ := mkPipeline_ok_of_ne_invalid _ hnei
  refine ⟨res, ?_, ?_⟩
  · unfold Pipeline.fit
    show pipeFit [inner.toStage, .transformer z] 0 c input = .ok res
    rw [pipeFit_step _ _ _ _ _ hloop]
    exact hres
  · rw [hresst]
    rfl

/-- Witness for C7 at the concrete nested pipeline `sampleInner` and the
identity transformer. -/
theorem nested_pipeline_fit_inst :
    PipelineOk sampleInner = true ∧
    sampleInner.need_fit = true ∧
    (∃ outer : Pipeline Unit Nat,
      mkPipeline [sampleInner.toStage, .transformer fun _ t => t] = .ok outer ∧
      outer.need_fit = true ∧
      ∃ innerFitted : Pipeline Unit Nat, sampleInner.fit () 0 = .ok innerFitted ∧
        innerFitted.need_fit = false ∧
        ∃ res : Pipeline Unit Nat, outer.fit () 0 = .ok res ∧
          res.stages.head? = some innerFitted.toStage) := by
  have hok : PipelineOk sampleInner = true := by
    simp [PipelineOk, sampleInner, stagesOk_cons, stagesOk_nil, StageOk_estimator,
      lastNeedFitIndex_cons, lastNeedFitIndex_nil, sampleE, isStageNeedFit]
  have hnf : sampleInner.need_fit = true := rfl
  exact ⟨hok, hnf, nested_pipeline_fit sampleInner (fun _ t => t) () 0 hok hnf⟩

end FlinkML
